import Mathlib

/-!
Verification of the GBK encoding handler (`src/enc/yp_gbk.c`).

The byte window `(const char *c, ptrdiff_t n)` is modelled as a
`List Nat` of byte values together with a signed length `n : Int`;
a read `uc[i]` of the C code becomes `byteAt c i`.  The decoder
`yp_gbk_codepoint`, the width query `yp_encoding_gbk_char_width` and the
three classification queries are translated directly from the source.
The external ASCII classification capability is not part of this
repository's sources; it is modelled from the specification.
-/

/-- The read `uc[i]` of the C code on the byte window `c`. -/
def byteAt (c : List Nat) (i : Nat) : Nat := c.getD i 0

/-- Result of `yp_gbk_codepoint`: the returned `yp_gbk_codepoint_t` value
together with the value stored through the `width` out-parameter. -/
structure DecodeResult where
  codepoint : Nat
  width : Nat
deriving Repr, DecidableEq

/-- The five-band double-byte condition of `yp_gbk_codepoint`
(lines 19-23 of `yp_gbk.c`), one disjunct per source line. -/
def gbk_double_byte_match (b0 b1 : Nat) : Prop :=
  ((0xA1 ≤ b0 ∧ b0 ≤ 0xA9) ∧ (0xA1 ≤ b1 ∧ b1 ≤ 0xFE)) ∨ -- GBK/1
  ((0xB0 ≤ b0 ∧ b0 ≤ 0xF7) ∧ (0xA1 ≤ b1 ∧ b1 ≤ 0xFE)) ∨ -- GBK/2
  ((0x81 ≤ b0 ∧ b0 ≤ 0xA0) ∧ (0x40 ≤ b1 ∧ b1 ≤ 0xFE) ∧ b1 ≠ 0x7F) ∨ -- GBK/3
  ((0xAA ≤ b0 ∧ b0 ≤ 0xFE) ∧ (0x40 ≤ b1 ∧ b1 ≤ 0xA0) ∧ b1 ≠ 0x7F) ∨ -- GBK/4
  ((0xA8 ≤ b0 ∧ b0 ≤ 0xA9) ∧ (0x40 ≤ b1 ∧ b1 ≤ 0xA0) ∧ b1 ≠ 0x7F) -- GBK/5

instance (b0 b1 : Nat) : Decidable (gbk_double_byte_match b0 b1) := by
  unfold gbk_double_byte_match; infer_instance

/-- `yp_gbk_codepoint(c, n, &width)`: the codepoint decoder.  The
`(yp_gbk_codepoint_t)` cast to `uint16_t` is the `% 2 ^ 16`. -/
def yp_gbk_codepoint (c : List Nat) (n : Int) : DecodeResult :=
  if byteAt c 0 < 0x80 then
    { codepoint := byteAt c 0, width := 1 }
  else if n > 1 ∧ gbk_double_byte_match (byteAt c 0) (byteAt c 1) then
    { codepoint := (byteAt c 0 <<< 8 ||| byteAt c 1) % 2 ^ 16, width := 2 }
  else
    { codepoint := 0, width := 0 }

/-- `yp_encoding_gbk_char_width(c, n)`. -/
def yp_encoding_gbk_char_width (c : List Nat) (n : Int) : Nat :=
  (yp_gbk_codepoint c n).width

/-- Modelled from the spec: `yp_encoding_ascii_alpha_char`, the external
single-byte ASCII alphabetic-classification capability (its implementation
is not under `src/`).  Per the spec it is a "single-byte classification
provider ... taking a one-byte window and returning width", so it
classifies the first byte only and ignores the length argument; it returns
width 1 on an ASCII letter and 0 otherwise (spec section 8: byte `0x41`
has `alpha_char == 1`). -/
def yp_encoding_ascii_alpha_char (c : List Nat) (_n : Int) : Nat :=
  let b := byteAt c 0
  if (0x41 ≤ b ∧ b ≤ 0x5A) ∨ (0x61 ≤ b ∧ b ≤ 0x7A) then 1 else 0

/-- Modelled from the spec: `yp_encoding_ascii_alnum_char`, the external
single-byte ASCII alphanumeric-classification capability (not under
`src/`): width 1 on an ASCII letter or digit, 0 otherwise, from the first
byte only. -/
def yp_encoding_ascii_alnum_char (c : List Nat) (_n : Int) : Nat :=
  let b := byteAt c 0
  if (0x41 ≤ b ∧ b ≤ 0x5A) ∨ (0x61 ≤ b ∧ b ≤ 0x7A) ∨ (0x30 ≤ b ∧ b ≤ 0x39)
  then 1 else 0

/-- Modelled from the spec: `yp_encoding_ascii_isupper_char`, the external
single-byte ASCII uppercase test (not under `src/`): true exactly on an
ASCII uppercase letter, from the first byte only (spec section 8: `0x41`
is upper, `0x61` is not). -/
def yp_encoding_ascii_isupper_char (c : List Nat) (_n : Int) : Bool :=
  let b := byteAt c 0
  decide (0x41 ≤ b ∧ b ≤ 0x5A)

/-- `yp_encoding_gbk_alpha_char(c, n)`: on a width-1 decode the single
decoded byte is placed in a fresh one-byte buffer (`const char value`)
and the ASCII capability is called on it with the original length `n`. -/
def yp_encoding_gbk_alpha_char (c : List Nat) (n : Int) : Nat :=
  let r := yp_gbk_codepoint c n
  if r.width = 1 then yp_encoding_ascii_alpha_char [r.codepoint] n else 0

/-- `yp_encoding_gbk_alnum_char(c, n)`. -/
def yp_encoding_gbk_alnum_char (c : List Nat) (n : Int) : Nat :=
  let r := yp_gbk_codepoint c n
  if r.width = 1 then yp_encoding_ascii_alnum_char [r.codepoint] n else 0

/-- `yp_encoding_gbk_isupper_char(c, n)`. -/
def yp_encoding_gbk_isupper_char (c : List Nat) (n : Int) : Bool :=
  let r := yp_gbk_codepoint c n
  if r.width = 1 then yp_encoding_ascii_isupper_char [r.codepoint] n else false

/-- The encoding handler descriptor type `yp_encoding_t`. -/
structure yp_encoding_t where
  name : String
  char_width : List Nat → Int → Nat
  alnum_char : List Nat → Int → Nat
  alpha_char : List Nat → Int → Nat
  isupper_char : List Nat → Int → Bool
  multibyte : Bool

/-- The descriptor `yp_encoding_gbk`. -/
def yp_encoding_gbk : yp_encoding_t :=
  { name := "gbk"
    char_width := yp_encoding_gbk_char_width
    alnum_char := yp_encoding_gbk_alnum_char
    alpha_char := yp_encoding_gbk_alpha_char
    isupper_char := yp_encoding_gbk_isupper_char
    multibyte := true }

/-- The set of window indices `yp_gbk_codepoint` reads, following the
source's evaluation order: `*uc` (index 0) is dereferenced
unconditionally by the single-byte test; the second byte `uc[1]` is
reached only behind the short-circuited `n > 1` guard, and then only
when one of the five lead-byte interval tests passes. -/
def yp_gbk_codepoint_reads (c : List Nat) (n : Int) : List Nat :=
  if byteAt c 0 < 0x80 then [0]
  else if n > 1 ∧
      ((0xA1 ≤ byteAt c 0 ∧ byteAt c 0 ≤ 0xA9) ∨
       (0xB0 ≤ byteAt c 0 ∧ byteAt c 0 ≤ 0xF7) ∨
       (0x81 ≤ byteAt c 0 ∧ byteAt c 0 ≤ 0xA0) ∨
       (0xAA ≤ byteAt c 0 ∧ byteAt c 0 ≤ 0xFE) ∨
       (0xA8 ≤ byteAt c 0 ∧ byteAt c 0 ≤ 0xA9)) then [0, 1]
  else [0]

/-- The argument pair (one-byte buffer, length) with which
`yp_encoding_gbk_alpha_char` invokes the ASCII capability
`yp_encoding_ascii_alpha_char`; `none` when the delegate is not invoked.
The source builds the buffer from the decoded byte (`&value`) but passes
the original remaining length `n`. -/
def gbk_alpha_delegate_call (c : List Nat) (n : Int) : Option (List Nat × Int) :=
  let r := yp_gbk_codepoint c n
  if r.width = 1 then some ([r.codepoint], n) else none

/-- Band `i` (`i < 5` for GBK/1 .. GBK/5) of the double-byte condition,
exactly as written in the source. -/
def gbkBand : Nat → Nat → Nat → Prop
  | 0, b0, b1 => (0xA1 ≤ b0 ∧ b0 ≤ 0xA9) ∧ (0xA1 ≤ b1 ∧ b1 ≤ 0xFE)
  | 1, b0, b1 => (0xB0 ≤ b0 ∧ b0 ≤ 0xF7) ∧ (0xA1 ≤ b1 ∧ b1 ≤ 0xFE)
  | 2, b0, b1 => (0x81 ≤ b0 ∧ b0 ≤ 0xA0) ∧ (0x40 ≤ b1 ∧ b1 ≤ 0xFE) ∧ b1 ≠ 0x7F
  | 3, b0, b1 => (0xAA ≤ b0 ∧ b0 ≤ 0xFE) ∧ (0x40 ≤ b1 ∧ b1 ≤ 0xA0) ∧ b1 ≠ 0x7F
  | 4, b0, b1 => (0xA8 ≤ b0 ∧ b0 ≤ 0xA9) ∧ (0x40 ≤ b1 ∧ b1 ≤ 0xA0) ∧ b1 ≠ 0x7F
  | _ + 5, _, _ => False

instance (i b0 b1 : Nat) : Decidable (gbkBand i b0 b1) := by
  unfold gbkBand
  split <;> infer_instance

/-- The closed lead/trail interval pair of band `i` (GBK/1 .. GBK/5),
without the `!= 0x7F` reserved-hole exclusions. -/
def gbkBandInterval : Nat → Nat → Nat → Prop
  | 0, b0, b1 => (0xA1 ≤ b0 ∧ b0 ≤ 0xA9) ∧ (0xA1 ≤ b1 ∧ b1 ≤ 0xFE)
  | 1, b0, b1 => (0xB0 ≤ b0 ∧ b0 ≤ 0xF7) ∧ (0xA1 ≤ b1 ∧ b1 ≤ 0xFE)
  | 2, b0, b1 => (0x81 ≤ b0 ∧ b0 ≤ 0xA0) ∧ (0x40 ≤ b1 ∧ b1 ≤ 0xFE)
  | 3, b0, b1 => (0xAA ≤ b0 ∧ b0 ≤ 0xFE) ∧ (0x40 ≤ b1 ∧ b1 ≤ 0xA0)
  | 4, b0, b1 => (0xA8 ≤ b0 ∧ b0 ≤ 0xA9) ∧ (0x40 ≤ b1 ∧ b1 ≤ 0xA0)
  | _ + 5, _, _ => False

instance (i b0 b1 : Nat) : Decidable (gbkBandInterval i b0 b1) := by
  unfold gbkBandInterval
  split <;> infer_instance

theorem byteAt_zero (b : Nat) (rest : List Nat) : byteAt (b :: rest) 0 = b := rfl

theorem byteAt_one (b0 b1 : Nat) (rest : List Nat) :
    byteAt (b0 :: b1 :: rest) 1 = b1 := rfl

/-- Any matched double-byte pair has lead in `[0x81, 0xFE]` and trail at
most `0xFE`, so its packed codepoint fits in 16 bits and the `uint16_t`
cast is the identity on it. -/
theorem gbk_cp_mod_eq (b0 b1 : Nat) (h : gbk_double_byte_match b0 b1) :
    (b0 <<< 8 ||| b1) % 2 ^ 16 = b0 <<< 8 ||| b1 := by
  have h0 : b0 < 2 ^ 8 := by unfold gbk_double_byte_match at h; omega
  have h1 : b1 < 2 ^ 8 := by unfold gbk_double_byte_match at h; omega
  exact Nat.mod_eq_of_lt (Nat.append_lt h1 h0)

theorem gbk_match_lead_high (b0 b1 : Nat) (h : gbk_double_byte_match b0 b1) :
    ¬ b0 < 0x80 := by
  unfold gbk_double_byte_match at h; omega

/-- C1: a window of remaining length `n > 1` whose first two bytes fall
into one of the five double-byte bands (reserved holes excluded) decodes
to width 2 with codepoint `b0 <<< 8 ||| b1`; in particular `0xA1 0xA1`
with `n = 2` decodes to width 2, codepoint `0xA1A1`. -/
theorem C1_double_byte_decode (b0 b1 : Nat) (rest : List Nat) (n : Int)
    (hn : 1 < n) (hm : gbk_double_byte_match b0 b1) :
    yp_gbk_codepoint (b0 :: b1 :: rest) n = ⟨b0 <<< 8 ||| b1, 2⟩ ∧
    yp_gbk_codepoint [0xA1, 0xA1] 2 = ⟨0xA1A1, 2⟩ := by
  refine ⟨?_, by decide⟩
  unfold yp_gbk_codepoint
  rw [byteAt_zero, byteAt_one, if_neg (gbk_match_lead_high b0 b1 hm),
    if_pos ⟨hn, hm⟩, gbk_cp_mod_eq b0 b1 hm]

/-- Witness for C1 at the concrete band-2 pair `0xB0 0xA1`. -/
theorem C1_double_byte_decode_witness :
    yp_gbk_codepoint [0xB0, 0xA1] 2 = ⟨0xB0A1, 2⟩ :=
  ((C1_double_byte_decode 0xB0 0xA1 [] 2 (by decide) (by decide)).1).trans
    (by decide)

/-- C2: a first byte below `0x80` decodes to width 1 with the byte itself
as codepoint, whatever the remaining bytes are. -/
theorem C2_single_byte (b : Nat) (rest : List Nat) (n : Int)
    (hb : b < 0x80) (hn : 1 ≤ n) :
    yp_gbk_codepoint (b :: rest) n = ⟨b, 1⟩ ∧
    yp_encoding_gbk_char_width (b :: rest) n = 1 := by
  unfold yp_encoding_gbk_char_width yp_gbk_codepoint
  rw [byteAt_zero, if_pos hb]
  exact ⟨rfl, rfl⟩

/-- Witness for C2 at byte `0x41` followed by a high byte. -/
theorem C2_single_byte_witness :
    yp_gbk_codepoint [0x41, 0x99] 2 = ⟨0x41, 1⟩ ∧
    yp_encoding_gbk_char_width [0x41, 0x99] 2 = 1 :=
  C2_single_byte 0x41 [0x99] 2 (by decide) (by decide)

/-- C3: the decoder returns `(codepoint 0, width 0)` exactly when the
first byte is at least `0x80` and the double-byte condition fails; in
particular any first byte at least `0x80` with `n = 1` yields width 0,
and the reserved-hole pair `0x81 0x7F` yields width 0. -/
theorem C3_width_zero_iff (c : List Nat) (n : Int) (b : Nat) :
    (yp_gbk_codepoint c n = ⟨0, 0⟩ ↔
      (0x80 ≤ byteAt c 0 ∧
        ¬ (1 < n ∧ gbk_double_byte_match (byteAt c 0) (byteAt c 1)))) ∧
    (0x80 ≤ byteAt c 0 → yp_gbk_codepoint c 1 = ⟨0, 0⟩) ∧
    (0x80 ≤ b → yp_gbk_codepoint [b] 1 = ⟨0, 0⟩) ∧
    yp_gbk_codepoint [0x81, 0x7F] 2 = ⟨0, 0⟩ := by
  have main : ∀ (d : List Nat) (m : Int),
      yp_gbk_codepoint d m = ⟨0, 0⟩ ↔
        (0x80 ≤ byteAt d 0 ∧
          ¬ (1 < m ∧ gbk_double_byte_match (byteAt d 0) (byteAt d 1))) := by
    intro d m
    unfold yp_gbk_codepoint
    split_ifs with h1 h2
    · simp only [DecodeResult.mk.injEq]
      constructor
      · rintro ⟨-, h⟩; exact absurd h one_ne_zero
      · rintro ⟨h, -⟩; omega
    · simp only [DecodeResult.mk.injEq]
      constructor
      · rintro ⟨-, h⟩; exact absurd h two_ne_zero
      · rintro ⟨-, h⟩; exact absurd h2 h
    · simp only [DecodeResult.mk.injEq, true_and]
      constructor
      · intro _; exact ⟨by omega, h2⟩
      · intro _; trivial
  refine ⟨main c n, ?_, ?_, by decide⟩
  · intro hb
    rw [main c 1]
    exact ⟨hb, by rintro ⟨h, -⟩; omega⟩
  · intro hb
    rw [main [b] 1]
    exact ⟨hb, by rintro ⟨h, -⟩; omega⟩

/-- Witness for C3 at the truncated window `[0x90]` with `n = 1`. -/
theorem C3_width_zero_witness : yp_gbk_codepoint [0x90] 1 = ⟨0, 0⟩ :=
  (C3_width_zero_iff [0x90] 1 0x90).2.2.1 (by decide)

/-- C4 counterexample: three distinct bands (GBK/3, GBK/4, GBK/5), not
exactly one, reject a pair lying inside their closed lead/trail
intervals — the reserved trail value `0x7F` — so it is false that in
four of the five bands every in-interval trail is accepted. -/
theorem C4_counterexample :
    (gbkBandInterval 2 0x81 0x7F ∧ yp_encoding_gbk_char_width [0x81, 0x7F] 2 = 0) ∧
    (gbkBandInterval 3 0xAA 0x7F ∧ yp_encoding_gbk_char_width [0xAA, 0x7F] 2 = 0) ∧
    (gbkBandInterval 4 0xA8 0x7F ∧ yp_encoding_gbk_char_width [0xA8, 0x7F] 2 = 0) := by
  decide

/-- C4 (amended): the two bands whose trail interval is `[0xA1, 0xFE]`
(GBK/1, GBK/2) accept every in-interval trail; the three bands whose
trail interval starts at `0x40` (GBK/3, GBK/4, GBK/5) each exclude the
reserved trail `0x7F` and accept every other in-interval trail; with the
trail byte `0x7F`, every lead byte in `[0x81, 0xFE]` is rejected. -/
theorem C4_three_hole_bands (b0 b1 : Nat) (rest : List Nat) (n : Int)
    (hn : 1 < n) :
    ((gbkBandInterval 0 b0 b1 ∨ gbkBandInterval 1 b0 b1) →
      yp_encoding_gbk_char_width (b0 :: b1 :: rest) n = 2) ∧
    ((gbkBandInterval 2 b0 b1 ∨ gbkBandInterval 3 b0 b1 ∨ gbkBandInterval 4 b0 b1) →
      b1 ≠ 0x7F → yp_encoding_gbk_char_width (b0 :: b1 :: rest) n = 2) ∧
    (0x81 ≤ b0 → b0 ≤ 0xFE →
      yp_encoding_gbk_char_width (b0 :: 0x7F :: rest) n = 0) := by
  refine ⟨?_, ?_, ?_⟩
  · intro h
    have hm : gbk_double_byte_match b0 b1 := by
      unfold gbkBandInterval at h
      unfold gbk_double_byte_match
      omega
    unfold yp_encoding_gbk_char_width yp_gbk_codepoint
    rw [byteAt_zero, byteAt_one, if_neg (gbk_match_lead_high b0 b1 hm),
      if_pos ⟨hn, hm⟩]
  · intro h hb1
    have hm : gbk_double_byte_match b0 b1 := by
      unfold gbkBandInterval at h
      unfold gbk_double_byte_match
      omega
    unfold yp_encoding_gbk_char_width yp_gbk_codepoint
    rw [byteAt_zero, byteAt_one, if_neg (gbk_match_lead_high b0 b1 hm),
      if_pos ⟨hn, hm⟩]
  · intro hlo hhi
    unfold yp_encoding_gbk_char_width yp_gbk_codepoint
    rw [byteAt_zero, byteAt_one, if_neg (by omega), if_neg ?_]
    rintro ⟨-, hm⟩
    unfold gbk_double_byte_match at hm
    omega

/-- Witness for the amended C4: a full-interval trail in GBK/1, a
non-hole trail in GBK/3, and the rejected hole at lead `0x90`. -/
theorem C4_three_hole_bands_witness :
    yp_encoding_gbk_char_width [0xA1, 0xFE] 2 = 2 ∧
    yp_encoding_gbk_char_width [0x81, 0x40] 2 = 2 ∧
    yp_encoding_gbk_char_width [0x90, 0x7F] 2 = 0 :=
  ⟨(C4_three_hole_bands 0xA1 0xFE [] 2 (by decide)).1 (Or.inl (by decide)),
   (C4_three_hole_bands 0x81 0x40 [] 2 (by decide)).2.1 (Or.inl (by decide))
     (by decide),
   (C4_three_hole_bands 0x90 0x7F [] 2 (by decide)).2.2 (by decide) (by decide)⟩

/-- C5 counterexample: with remaining length `n = 0` the decoder still
dereferences the first byte (`*uc < 0x80` is evaluated before any length
check), a read at index `0 ≥ n`. -/
theorem C5_counterexample :
    yp_gbk_codepoint_reads [0x41] 0 = [0] ∧ ¬ ((0 : Int) < 0) := by decide

/-- C5 (amended): for every window with `n ≥ 1`, every index the decoder
reads is below `n`; the second byte is read only under the guard
`n > 1`; and the four queries access the window only through the
decoder, so the same bound covers them. -/
theorem C5_reads_in_bounds (c : List Nat) (n : Int) (hn : 1 ≤ n) :
    (∀ i ∈ yp_gbk_codepoint_reads c n, (i : Int) < n) ∧
    (1 ∈ yp_gbk_codepoint_reads c n → 1 < n) ∧
    yp_encoding_gbk_char_width c n = (yp_gbk_codepoint c n).width ∧
    yp_encoding_gbk_alpha_char c n =
      (if (yp_gbk_codepoint c n).width = 1 then
        yp_encoding_ascii_alpha_char [(yp_gbk_codepoint c n).codepoint] n
       else 0) ∧
    yp_encoding_gbk_alnum_char c n =
      (if (yp_gbk_codepoint c n).width = 1 then
        yp_encoding_ascii_alnum_char [(yp_gbk_codepoint c n).codepoint] n
       else 0) ∧
    yp_encoding_gbk_isupper_char c n =
      (if (yp_gbk_codepoint c n).width = 1 then
        yp_encoding_ascii_isupper_char [(yp_gbk_codepoint c n).codepoint] n
       else false) := by
  refine ⟨?_, ?_, rfl, rfl, rfl, rfl⟩
  · intro i hi
    unfold yp_gbk_codepoint_reads at hi
    split_ifs at hi with h1 h2
    · have h0 : i = 0 := by simpa using hi
      omega
    · have h01 : i = 0 ∨ i = 1 := by simpa using hi
      rcases h2 with ⟨h2, -⟩
      rcases h01 with rfl | rfl
      · omega
      · omega
    · have h0 : i = 0 := by simpa using hi
      omega
  · intro h1
    unfold yp_gbk_codepoint_reads at h1
    split_ifs at h1 with ha hb
    · simp at h1
    · exact hb.1
    · simp at h1

/-- Witness for the amended C5 on the window `[0xA1, 0xA1]` with
`n = 2`. -/
theorem C5_reads_in_bounds_witness :
    (∀ i ∈ yp_gbk_codepoint_reads [0xA1, 0xA1] 2, (i : Int) < 2) ∧
    yp_encoding_gbk_char_width [0xA1, 0xA1] 2 =
      (yp_gbk_codepoint [0xA1, 0xA1] 2).width :=
  ⟨(C5_reads_in_bounds [0xA1, 0xA1] 2 (by decide)).1,
   (C5_reads_in_bounds [0xA1, 0xA1] 2 (by decide)).2.2.1⟩

/-- C6 counterexample: on the window `[0x41, 0x42]` with `n = 2` the
single-byte delegate is invoked with remaining length 2, not 1 — the
source passes the original `n` alongside the one-byte buffer. -/
theorem C6_counterexample :
    gbk_alpha_delegate_call [0x41, 0x42] 2 = some ([0x41], 2) ∧
    (2 : Int) ≠ 1 := by decide

/-- C6 (amended): on a width-1 decode each classification query returns
exactly the single-byte capability's result on a one-byte window of
length one (the capability reads only its first byte), but the delegate
is invoked with the one-byte buffer and the original remaining length
`n`. -/
theorem C6_delegation (c : List Nat) (n : Int)
    (h : (yp_gbk_codepoint c n).width = 1) :
    yp_encoding_gbk_alpha_char c n =
      yp_encoding_ascii_alpha_char [(yp_gbk_codepoint c n).codepoint] 1 ∧
    yp_encoding_gbk_alnum_char c n =
      yp_encoding_ascii_alnum_char [(yp_gbk_codepoint c n).codepoint] 1 ∧
    yp_encoding_gbk_isupper_char c n =
      yp_encoding_ascii_isupper_char [(yp_gbk_codepoint c n).codepoint] 1 ∧
    gbk_alpha_delegate_call c n =
      some ([(yp_gbk_codepoint c n).codepoint], n) := by
  unfold yp_encoding_gbk_alpha_char yp_encoding_gbk_alnum_char
    yp_encoding_gbk_isupper_char gbk_alpha_delegate_call
  rw [if_pos h, if_pos h, if_pos h, if_pos h]
  exact ⟨rfl, rfl, rfl, rfl⟩

/-- Witness for the amended C6 at the lowercase letter `0x61`. -/
theorem C6_delegation_witness :
    yp_encoding_gbk_alpha_char [0x61] 1 =
      yp_encoding_ascii_alpha_char [0x61] 1 :=
  ((C6_delegation [0x61] 1 (by decide)).1).trans (by decide)

/-- C7: on any decode of width other than 1, `alpha_char` and
`alnum_char` return 0 and `isupper_char` returns false; consequently
`isupper_char` is false whenever the first byte is at least `0x80`. -/
theorem C7_non_single_byte (c : List Nat) (n : Int) :
    ((yp_gbk_codepoint c n).width ≠ 1 →
      yp_encoding_gbk_alpha_char c n = 0 ∧
      yp_encoding_gbk_alnum_char c n = 0 ∧
      yp_encoding_gbk_isupper_char c n = false) ∧
    (0x80 ≤ byteAt c 0 → yp_encoding_gbk_isupper_char c n = false) := by
  have hmain : (yp_gbk_codepoint c n).width ≠ 1 →
      yp_encoding_gbk_alpha_char c n = 0 ∧
      yp_encoding_gbk_alnum_char c n = 0 ∧
      yp_encoding_gbk_isupper_char c n = false := by
    intro h
    unfold yp_encoding_gbk_alpha_char yp_encoding_gbk_alnum_char
      yp_encoding_gbk_isupper_char
    rw [if_neg h, if_neg h, if_neg h]
    exact ⟨rfl, rfl, rfl⟩
  refine ⟨hmain, fun hb => (hmain ?_).2.2⟩
  unfold yp_gbk_codepoint
  split_ifs with h1 h2
  · omega
  · exact fun h => absurd (show (2 : Nat) = 1 from h) (by decide)
  · exact fun h => absurd (show (0 : Nat) = 1 from h) (by decide)

/-- Witness for C7 on the valid double-byte window `[0xA1, 0xA1]`. -/
theorem C7_non_single_byte_witness :
    yp_encoding_gbk_alpha_char [0xA1, 0xA1] 2 = 0 ∧
    yp_encoding_gbk_isupper_char [0xA1, 0xA1] 2 = false :=
  ⟨((C7_non_single_byte [0xA1, 0xA1] 2).1 (by decide)).1,
   (C7_non_single_byte [0xA1, 0xA1] 2).2 (by decide)⟩

/-- C8: the five double-byte bands are pairwise disjoint as sets of
(lead, trail) pairs, and the decoder's double-byte condition holds
exactly when some band (hence, by disjointness, exactly one) holds. -/
theorem C8_bands_disjoint (i j b0 b1 : Nat)
    (hi : i < 5) (hj : j < 5) (hij : i ≠ j) (h : gbkBand i b0 b1) :
    ¬ gbkBand j b0 b1 ∧
    (gbk_double_byte_match b0 b1 ↔ ∃ k, k < 5 ∧ gbkBand k b0 b1) := by
  constructor
  · intro hjb
    interval_cases i <;> interval_cases j <;>
      unfold gbkBand at h hjb <;> omega
  · constructor
    · intro hm
      unfold gbk_double_byte_match at hm
      rcases hm with h1 | h2 | h3 | h4 | h5
      · exact ⟨0, by omega, h1⟩
      · exact ⟨1, by omega, h2⟩
      · exact ⟨2, by omega, h3⟩
      · exact ⟨3, by omega, h4⟩
      · exact ⟨4, by omega, h5⟩
    · rintro ⟨k, hk, hkb⟩
      unfold gbk_double_byte_match
      interval_cases k <;> unfold gbkBand at hkb <;> omega

/-- Witness for C8 with bands GBK/1 and GBK/2 at the pair
`(0xA1, 0xA1)`. -/
theorem C8_bands_disjoint_witness :
    ¬ gbkBand 1 0xA1 0xA1 ∧
    (gbk_double_byte_match 0xA1 0xA1 ↔ ∃ k, k < 5 ∧ gbkBand k 0xA1 0xA1) :=
  C8_bands_disjoint 0 1 0xA1 0xA1 (by decide) (by decide) (by decide)
    (by decide)

/-- C9: for remaining length `n ≥ 1` the returned width never exceeds
`n`; width 2 arises only under `n > 1`. -/
theorem C9_width_le_n (c : List Nat) (n : Int) (hn : 1 ≤ n) :
    (yp_encoding_gbk_char_width c n : Int) ≤ n ∧
    (yp_encoding_gbk_char_width c n = 2 → 1 < n) := by
  unfold yp_encoding_gbk_char_width yp_gbk_codepoint
  split_ifs with h1 h2
  · refine ⟨?_, fun h => absurd (show (1 : Nat) = 2 from h) (by decide)⟩
    show ((1 : Nat) : Int) ≤ n
    omega
  · rcases h2 with ⟨h2, -⟩
    refine ⟨?_, fun _ => h2⟩
    show ((2 : Nat) : Int) ≤ n
    omega
  · refine ⟨?_, fun h => h.elim⟩
    show ((0 : Nat) : Int) ≤ n
    omega

/-- Witness for C9 on the single-byte window `[0x41]` with `n = 1`. -/
theorem C9_width_le_n_witness :
    (yp_encoding_gbk_char_width [0x41] 1 : Int) ≤ 1 :=
  (C9_width_le_n [0x41] 1 (by decide)).1

/-- C10: the decoder's result depends only on the first two bytes and on
whether `n > 1`: windows with lengths at least 2 agreeing on their first
two bytes, or windows of length 1 agreeing on their first byte, decode
identically, for both `yp_gbk_codepoint` and the width query. -/
theorem C10_first_two_bytes_determine (c₁ c₂ : List Nat) (n₁ n₂ : Int) :
    (2 ≤ n₁ → 2 ≤ n₂ → byteAt c₁ 0 = byteAt c₂ 0 → byteAt c₁ 1 = byteAt c₂ 1 →
      yp_gbk_codepoint c₁ n₁ = yp_gbk_codepoint c₂ n₂ ∧
      yp_encoding_gbk_char_width c₁ n₁ = yp_encoding_gbk_char_width c₂ n₂) ∧
    (n₁ = 1 → n₂ = 1 → byteAt c₁ 0 = byteAt c₂ 0 →
      yp_gbk_codepoint c₁ n₁ = yp_gbk_codepoint c₂ n₂ ∧
      yp_encoding_gbk_char_width c₁ n₁ = yp_encoding_gbk_char_width c₂ n₂) := by
  constructor
  · intro hn1 hn2 e0 e1
    have key : yp_gbk_codepoint c₁ n₁ = yp_gbk_codepoint c₂ n₂ := by
      unfold yp_gbk_codepoint
      rw [e0, e1]
      by_cases h0 : byteAt c₂ 0 < 0x80
      · rw [if_pos h0, if_pos h0]
      · rw [if_neg h0, if_neg h0]
        by_cases hm : gbk_double_byte_match (byteAt c₂ 0) (byteAt c₂ 1)
        · rw [if_pos ⟨by omega, hm⟩, if_pos ⟨by omega, hm⟩]
        · rw [if_neg (fun h => hm h.2), if_neg (fun h => hm h.2)]
    exact ⟨key, by unfold yp_encoding_gbk_char_width; rw [key]⟩
  · intro hn1 hn2 e0
    subst hn1; subst hn2
    have key : yp_gbk_codepoint c₁ 1 = yp_gbk_codepoint c₂ 1 := by
      unfold yp_gbk_codepoint
      rw [e0]
      by_cases h0 : byteAt c₂ 0 < 0x80
      · rw [if_pos h0, if_pos h0]
      · rw [if_neg h0, if_neg h0,
          if_neg (fun h => absurd h.1 (by omega)),
          if_neg (fun h => absurd h.1 (by omega))]
    exact ⟨key, by unfold yp_encoding_gbk_char_width; rw [key]⟩

/-- Witness for C10: two windows sharing the pair `0xA1 0xA1` but
differing at offset 2 and in length decode identically. -/
theorem C10_first_two_bytes_determine_witness :
    yp_gbk_codepoint [0xA1, 0xA1, 0x00] 2 = yp_gbk_codepoint [0xA1, 0xA1, 0xFF] 3 :=
  ((C10_first_two_bytes_determine [0xA1, 0xA1, 0x00] [0xA1, 0xA1, 0xFF] 2 3).1
    (by decide) (by decide) (by decide) (by decide)).1
